import Mathlib

/-!
Verification development for the ExplorerSharp directory presentation engine
and its LINQ-style sequence utility.

Modeling conventions:
* Filesystem locations and workspace-relative paths are modeled as lists of
  path segments (`RelPath`).  The source manipulates them as `/`-joined strings
  produced by `vscode.workspace.asRelativePath` / `vscode.Uri.joinPath`; for
  segment names actually produced by a filesystem (nonempty, `/`-free) the
  correspondence `segments ↔ joined string` is a bijection, so list equality
  models the source's string equality, and `p ++ [name]` models
  `asRelativePath(joinPath(uri, name))`.
* Display labels stay plain strings, built exactly as the source builds them
  (`folderName + "/" + rest`).
* The filesystem is a tree: `FSNode.file` is a file entry, `FSNode.dir` a
  readable directory with its listed children, and `FSNode.badDir` a
  directory entry whose `fs.readDirectory` call throws (permission error,
  race with deletion).  Reading a `file` also throws, as in VS Code.
* `vscode.FileType` is restricted to the two constructors the algorithm
  distinguishes (`File` and `Directory`).
* The recursion of `tryFlatten` into a single child directory is bounded by
  an explicit `fuel : Nat`; when the fuel is at least the depth of the node
  the definitions agree with the source (each recursive step descends one
  directory level).  `fuel = 0` behaves like "cannot flatten".
-/

abbrev RelPath := List String

inductive FileType where
  | file : FileType
  | directory : FileType
deriving DecidableEq

inductive FSNode where
  | file : FSNode
  | dir : List (String × FSNode) → FSNode
  | badDir : FSNode

/-- The `vscode.FileType` reported for an entry of the model filesystem. -/
def FSNode.ftype : FSNode → FileType
  | .file => .file
  | .dir _ => .directory
  | .badDir => .directory

/-! The sequence utility (`enumerable.ts`).

An `Enumerable` object is modeled by the two sequences that matter for its
observable behaviour: `sourceSeq` is the sequence produced by iterating the
object stored in its private `source` field (what `materialize` caches via
`Array.from(this.source)`), and `iterSeq` is the sequence produced by
iterating the object itself (its `[Symbol.iterator]`).  For a plain
`Enumerable` the two coincide; for an `OrderedEnumerable` the object's own
iterator additionally sorts, while `toArray` — inherited from `Enumerable` —
reads `Array.from(this.source)` and therefore does *not* apply the object's
own comparer.  The model keeps both sequences so that this distinction is
preserved faithfully. -/

/-- Model of `String.prototype.startsWith`: the other string's characters
form an initial segment of this string's characters. -/
def strStartsWith (s searchString : String) : Bool :=
  searchString.data.isPrefixOf s.data

/-- Source `defaultCompare`, at the numeric keys used by the provider. -/
def defaultCompare (a b : Nat) : Int :=
  if a < b then -1 else if b < a then 1 else 0

/-- Model of `String.prototype.localeCompare` as used by the provider:
a case-sensitive total comparison of the two names.  Only the sign is ever
consulted; the locale order is modeled by Lean's lexicographic `compare`. -/
def localeCompare (a b : String) : Int :=
  match compare a b with
  | .lt => -1
  | .eq => 0
  | .gt => 1

/-- Source `createKeyComparer`. -/
def createKeyComparer {α K : Type} (keySelector : α → K) (comparer : K → K → Int)
    (descending : Bool) : α → α → Int :=
  fun a b =>
    let r := comparer (keySelector a) (keySelector b)
    if descending then -r else r

/-- The comparer composition performed by `OrderedEnumerable.thenBy`. -/
def composeComparer {α : Type} (first next : α → α → Int) : α → α → Int :=
  fun a b =>
    let r := first a b
    if r = 0 then next a b else r

/-- The total order on index-decorated elements that `stableSort` hands to
`Array.prototype.sort`: the comparer first, original index as tiebreaker. -/
def decoratedLe {α : Type} (comparer : α → α → Int) (a b : Nat × α) : Bool :=
  if comparer a.2 b.2 = 0 then decide (a.1 ≤ b.1) else decide (comparer a.2 b.2 < 0)

def insertSorted {α : Type} (le : α → α → Bool) (x : α) : List α → List α
  | [] => [x]
  | y :: ys => if le x y then x :: y :: ys else y :: insertSorted le x ys

def insertionSort {α : Type} (le : α → α → Bool) : List α → List α
  | [] => []
  | x :: xs => insertSorted le x (insertionSort le xs)

/-- Source `stableSort`: decorate with the original index, sort by the
comparer with the index as tiebreaker, strip the decoration.  The decorated
comparison `decoratedLe` is a total order (indices are distinct), so the
result of `Array.prototype.sort` is the unique list sorted by it and any
correct sorting algorithm — here insertion sort — computes it. -/
def stableSort {α : Type} (comparer : α → α → Int) (items : List α) : List α :=
  (insertionSort (decoratedLe comparer) items.enum).map Prod.snd

structure EnumerableM (α : Type) where
  sourceSeq : List α
  iterSeq : List α

/-- Source `linq`: wrap a list; iterating the wrapper yields the list. -/
def linq {α : Type} (l : List α) : EnumerableM α := ⟨l, l⟩

/-- Source `Enumerable.toArray`: `materialize` stores `Array.from(this.source)`
and the cached array is returned (as a copy). -/
def toArrayE {α : Type} (e : EnumerableM α) : List α := e.sourceSeq

/-- Source `Enumerable.where`: the filtering iterator is wrapped in the
iterable passed to `new Enumerable`, so both the new object's source and its
own iteration yield the filtered sequence. -/
def whereE {α : Type} (e : EnumerableM α) (p : α → Bool) : EnumerableM α :=
  ⟨e.iterSeq.filter p, e.iterSeq.filter p⟩

/-- Source `Enumerable.contains` (`===` on members; value equality for the
string-like values the provider stores). -/
def containsE {α : Type} [BEq α] (e : EnumerableM α) (v : α) : Bool :=
  e.iterSeq.contains v

structure OrderedEnumerableM (α : Type) where
  sourceSeq : List α
  orderedSource : List α
  comparer : α → α → Int

/-- Iterating an `OrderedEnumerable` (its overridden `[Symbol.iterator]`):
`stableSort(this.orderedSource, this.comparer)`. -/
def iterSeqO {α : Type} (o : OrderedEnumerableM α) : List α :=
  stableSort o.comparer o.orderedSource

/-- Source `Enumerable.orderBy`: `new OrderedEnumerable(this, keyComparer)`.
Both the `source` field and `orderedSource` hold the receiver, whose
iteration yields `iterSeq`. -/
def orderBy {α K : Type} (e : EnumerableM α) (keySelector : α → K)
    (comparer : K → K → Int) : OrderedEnumerableM α :=
  ⟨e.iterSeq, e.iterSeq, createKeyComparer keySelector comparer false⟩

/-- Source `OrderedEnumerable.thenBy`: `new OrderedEnumerable(this, composed)`.
Both fields hold the receiver `OrderedEnumerable`, whose iteration sorts by
the receiver's own comparer. -/
def thenBy {α K : Type} (o : OrderedEnumerableM α) (keySelector : α → K)
    (comparer : K → K → Int) : OrderedEnumerableM α :=
  ⟨iterSeqO o, iterSeqO o, composeComparer o.comparer (createKeyComparer keySelector comparer false)⟩

/-- `toArray` on an `OrderedEnumerable` is the inherited `Enumerable.toArray`:
it materializes `Array.from(this.source)` — the sequence yielded by the
*previous* stage — and never consults the receiver's own comparer. -/
def toArrayO {α : Type} (o : OrderedEnumerableM α) : List α := o.sourceSeq

/-! The node descriptor (`ExplorerSharpItem.ts`). -/

structure ItemOptions where
  label : String
  uri : RelPath
  relativePath : RelPath
  isDirectory : Bool
  diskUri : Option RelPath

structure ExplorerSharpItem where
  label : String
  resourceUri : RelPath
  relativePath : RelPath
  isDirectory : Bool
  diskUri : RelPath
  contextValue : String
  folderPath : Option RelPath
  description : Option String
deriving DecidableEq

/-- The `ExplorerSharpItem` constructor. -/
def mkItem (o : ItemOptions) : ExplorerSharpItem :=
  { label := o.label
    resourceUri := o.uri
    relativePath := o.relativePath
    isDirectory := o.isDirectory
    diskUri := o.diskUri.getD o.uri
    contextValue := if o.isDirectory then "folder" else "file"
    folderPath := none
    description := none }

/-! The directory presentation engine (`explorerSharpProvider.ts`). -/

structure Config where
  hiddenFolders : List RelPath
  flattenSingleFile : Bool
  flattenSingleChild : Bool

/-- Source `path.basename` applied to a relative path. -/
def basename (p : RelPath) : String := p.getLast?.getD ""

/-- The `orderBy` key of `readDirectory`: `type === vscode.FileType.File ? 1 : 0`. -/
def entryRank (e : String × FSNode) : Nat :=
  if e.2.ftype = FileType.file then 1 else 0

/-- The sorting pipeline of `readDirectory`:
`linq(entries).orderBy(rank).thenBy(name, localeCompare).toArray()`. -/
def sortEntries (entries : List (String × FSNode)) : List (String × FSNode) :=
  toArrayO (thenBy (orderBy (linq entries) entryRank defaultCompare) Prod.fst localeCompare)

/-- The `where` predicate of `tryFlatten`: drop dotfiles and entries whose
relative path is in the hidden set. -/
def allowedEntry (hidden : List RelPath) (parentRel : RelPath) (e : String × FSNode) : Bool :=
  !(strStartsWith e.1 ".") && !(hidden.contains (parentRel ++ [e.1]))

/-- Source `flattenFile`. -/
def flattenFile (parentUri parentRelPath : RelPath) (fileName : String) : ExplorerSharpItem :=
  let fileUri := parentUri ++ [fileName]
  let fileRelative := parentRelPath ++ [fileName]
  let folderName := basename parentRelPath
  let label := folderName ++ "/" ++ fileName
  let item := mkItem { label := label, uri := fileUri, relativePath := fileRelative,
                       isDirectory := false, diskUri := none }
  { item with contextValue := "flatFolder", folderPath := some parentRelPath,
              description := some "" }

/-- Source `tryFlatten`.  The body of `flattenChildDir` is inlined in the
single-child branch (see `flattenChildDir` below, definitionally equal to
that branch) so that the recursion is structural in the fuel. -/
def tryFlatten (cfg : Config) : Nat → FSNode → RelPath → RelPath → Option ExplorerSharpItem
  | 0, _, _, _ => none
  | _ + 1, FSNode.file, _, _ => none
  | _ + 1, FSNode.badDir, _, _ => none
  | fuel + 1, FSNode.dir rawEntries, fullUri, relativePath =>
    let entries := toArrayE (whereE (linq rawEntries) (allowedEntry cfg.hiddenFolders relativePath))
    let dirs := toArrayE (whereE (linq entries) (fun e => e.2.ftype == FileType.directory))
    let files := toArrayE (whereE (linq entries) (fun e => !(e.2.ftype == FileType.directory)))
    if cfg.flattenSingleFile && files.length == 1 && dirs.length == 0 then
      match files.head? with
      | some f => some (flattenFile fullUri relativePath f.1)
      | none => none
    else if cfg.flattenSingleChild && dirs.length == 1 && files.length == 0 then
      match dirs.head? with
      | some c =>
        let childUri := fullUri ++ [c.1]
        let childRel := relativePath ++ [c.1]
        let folderName := basename relativePath
        match tryFlatten cfg fuel c.2 childUri childRel with
        | some deeper =>
          let compacted := mkItem { label := folderName ++ "/" ++ deeper.label,
                                    uri := deeper.resourceUri,
                                    relativePath := deeper.relativePath,
                                    isDirectory := deeper.isDirectory,
                                    diskUri := some deeper.diskUri }
          some { compacted with contextValue := deeper.contextValue,
                                folderPath := deeper.folderPath }
        | none =>
          some (mkItem { label := folderName ++ "/" ++ c.1, uri := childUri,
                         relativePath := childRel, isDirectory := true,
                         diskUri := some childUri })
      | none => none
    else none

/-- Source `flattenChildDir`, recursing through `tryFlatten` with the given
fuel.  Its body is exactly the single-child branch of `tryFlatten`. -/
def flattenChildDir (cfg : Config) (fuel : Nat) (parentUri parentRelPath : RelPath)
    (child : String × FSNode) : ExplorerSharpItem :=
  let childUri := parentUri ++ [child.1]
  let childRel := parentRelPath ++ [child.1]
  let folderName := basename parentRelPath
  match tryFlatten cfg fuel child.2 childUri childRel with
  | some deeper =>
    let compacted := mkItem { label := folderName ++ "/" ++ deeper.label,
                              uri := deeper.resourceUri,
                              relativePath := deeper.relativePath,
                              isDirectory := deeper.isDirectory,
                              diskUri := some deeper.diskUri }
    { compacted with contextValue := deeper.contextValue,
                     folderPath := deeper.folderPath }
  | none =>
    mkItem { label := folderName ++ "/" ++ child.1, uri := childUri,
             relativePath := childRel, isDirectory := true, diskUri := some childUri }

/-- The body of the per-entry loop of `readDirectory`: skip dotfiles, skip
hidden paths, attempt flattening for directories, otherwise a plain item. -/
def processEntry (cfg : Config) (fuel : Nat) (dirUri dirRel : RelPath)
    (e : String × FSNode) : Option ExplorerSharpItem :=
  if strStartsWith e.1 "." then none
  else
    let fullUri := dirUri ++ [e.1]
    let relativePath := dirRel ++ [e.1]
    if cfg.hiddenFolders.contains relativePath then none
    else if e.2.ftype == FileType.directory then
      match tryFlatten cfg fuel e.2 fullUri relativePath with
      | some flatResult => some flatResult
      | none => some (mkItem { label := e.1, uri := fullUri, relativePath := relativePath,
                               isDirectory := true, diskUri := none })
    else
      some (mkItem { label := e.1, uri := fullUri, relativePath := relativePath,
                     isDirectory := false, diskUri := none })

/-- Source `readDirectory`: a failing read (a `badDir`, or a file location)
is caught, logged and turned into the empty listing; otherwise the entries
are sorted and each one contributes at most one item, in sorted order. -/
def readDirectory (cfg : Config) (fuel : Nat) (node : FSNode) (dirUri dirRel : RelPath) :
    List ExplorerSharpItem :=
  match node with
  | FSNode.dir rawEntries =>
    (sortEntries rawEntries).filterMap (processEntry cfg fuel dirUri dirRel)
  | _ => []

/-- Source `getChildren`.  `world` maps a storage location to the filesystem
node found there; locations are workspace-relative, the workspace root being
the location it holds. -/
def getChildren (cfg : Config) (fuel : Nat) (world : RelPath → FSNode)
    (workspaceRoot : Option RelPath) (element : Option ExplorerSharpItem) :
    List ExplorerSharpItem :=
  match workspaceRoot with
  | none => []
  | some root =>
    let dirUri := match element with
      | some el => el.diskUri
      | none => root
    readDirectory cfg fuel (world dirUri) dirUri dirUri

/-- The hidden-list update of `hideFolderFromItem` once a folder path has
been resolved: push only if not already a member. -/
def hideFolder (hidden : List RelPath) (folderPath : RelPath) : List RelPath :=
  if containsE (linq hidden) folderPath then hidden else hidden ++ [folderPath]

/-- Source `unhideFolder`: keep every member different from the path. -/
def unhideFolder (hidden : List RelPath) (relativePath : RelPath) : List RelPath :=
  toArrayE (whereE (linq hidden) (fun f => f != relativePath))

/-! Stateful view of `Enumerable` materialization, for the caching contract:
`source` is the sequence iterating the private `source` field yields, and
`cachedArray` the mutable cache.  Each operation returns the updated object
together with the number of times it iterated the upstream source. -/

structure EnumerableState (α : Type) where
  source : List α
  cachedArray : Option (List α)

/-- Source `Enumerable.materialize`: evaluate and cache the upstream source
only when no cache is present. -/
def materialize {α : Type} (e : EnumerableState α) : EnumerableState α × Nat :=
  match e.cachedArray with
  | some _ => (e, 0)
  | none => (⟨e.source, some e.source⟩, 1)

/-- Source `Enumerable.toArray`: materialize, then return (a copy of) the
cached array. -/
def toArray {α : Type} (e : EnumerableState α) : List α × EnumerableState α × Nat :=
  let m := materialize e
  (m.1.cachedArray.getD m.1.source, m.1, m.2)

/-! Helper lemmas. -/

theorem contains_eq_false_iff {l : List RelPath} {a : RelPath} :
    l.contains a = false ↔ a ∉ l := by
  constructor
  · intro hc hm
    have ht : l.contains a = true := List.elem_iff.mpr hm
    rw [hc] at ht
    exact Bool.false_ne_true ht
  · intro hm
    cases hc : l.contains a with
    | false => rfl
    | true => exact absurd (List.elem_iff.mp hc) hm

theorem insertSorted_perm {α : Type} (le : α → α → Bool) (x : α) (l : List α) :
    List.Perm (insertSorted le x l) (x :: l) := by
  induction l with
  | nil => exact List.Perm.refl _
  | cons y ys ih =>
    cases hle : le x y with
    | true => simp [insertSorted, hle]
    | false =>
      simp only [insertSorted, hle, Bool.false_eq_true, if_false]
      exact List.Perm.trans (List.Perm.cons y ih) (List.Perm.swap x y ys)

theorem insertionSort_perm {α : Type} (le : α → α → Bool) (l : List α) :
    List.Perm (insertionSort le l) l := by
  induction l with
  | nil => exact List.Perm.refl _
  | cons x xs ih =>
    exact List.Perm.trans (insertSorted_perm le x (insertionSort le xs)) (List.Perm.cons x ih)

theorem stableSort_perm {α : Type} (c : α → α → Int) (l : List α) :
    List.Perm (stableSort c l) l := by
  have h1 := (insertionSort_perm (decoratedLe c) l.enum).map Prod.snd
  rwa [List.enum_map_snd] at h1

theorem mem_stableSort {α : Type} {c : α → α → Int} {l : List α} {x : α} :
    x ∈ stableSort c l ↔ x ∈ l :=
  (stableSort_perm c l).mem_iff

theorem isPre_snoc_cases {α : Type} {h p : List α} {n : α} (hp : h <+: p ++ [n]) :
    h <+: p ∨ h = p ++ [n] := by
  rcases hp with ⟨t, ht⟩
  rcases List.eq_nil_or_concat t with rfl | ⟨t2, a, rfl⟩
  · right; simpa using ht
  · left
    rw [List.concat_eq_append, ← List.append_assoc] at ht
    exact ⟨t2, (List.append_inj' ht rfl).1⟩

/-! Claim theorems. -/

/-- C6: a failing directory read is non-fatal everywhere: the top-level
listing of an unreadable location is empty (the failure is only logged, a
side effect outside this functional model), a failing read inside a
flattening attempt yields "cannot flatten" (`none`), and `flattenChildDir`
on an unreadable single child falls back to the plain directory node; no
error escapes the listing/flattening algorithm. -/
theorem c6_read_failure_nonfatal (cfg : Config) (fuel : Nat) (dirUri dirRel u r pu pr : RelPath)
    (name : String) :
    readDirectory cfg fuel FSNode.badDir dirUri dirRel = [] ∧
    tryFlatten cfg fuel FSNode.badDir u r = none ∧
    flattenChildDir cfg fuel pu pr (name, FSNode.badDir) =
      mkItem { label := basename pr ++ "/" ++ name, uri := pu ++ [name],
               relativePath := pr ++ [name], isDirectory := true,
               diskUri := some (pu ++ [name]) } := by
  refine ⟨rfl, ?_, ?_⟩
  · cases fuel <;> rfl
  · cases fuel <;> rfl

/-- C10: `getChildren` returns an empty list when the provider has no
workspace root — independently of the filesystem, so nothing is read — and
otherwise lists the given element's `diskUri`, falling back to the workspace
root when no element is given. -/
theorem c10_getChildren_dispatch (cfg : Config) (fuel : Nat) (world w2 : RelPath → FSNode)
    (element : Option ExplorerSharpItem) (root : RelPath) (el : ExplorerSharpItem) :
    getChildren cfg fuel world none element = [] ∧
    getChildren cfg fuel world none element = getChildren cfg fuel w2 none element ∧
    getChildren cfg fuel world (some root) (some el) =
      readDirectory cfg fuel (world el.diskUri) el.diskUri el.diskUri ∧
    getChildren cfg fuel world (some root) none =
      readDirectory cfg fuel (world root) root root :=
  ⟨rfl, rfl, rfl, rfl⟩

/-- C8: `toArray` is idempotent and caching: a second call returns an equal
array, leaves the object unchanged and evaluates the upstream source zero
times; any call evaluates the upstream source at most once, a first call on
an uncached object caching exactly its source sequence.  Each
`EnumerableState` value carries its own `cachedArray`, so distinct sequence
objects share no cached state by construction. -/
theorem c8_toArray_idempotent_cached {α : Type} (e : EnumerableState α) :
    (toArray (toArray e).2.1).1 = (toArray e).1 ∧
    (toArray (toArray e).2.1).2.1 = (toArray e).2.1 ∧
    (toArray (toArray e).2.1).2.2 = 0 ∧
    (toArray e).2.2 ≤ 1 ∧
    (e.cachedArray = none →
      (toArray e).1 = e.source ∧ (toArray e).2.1.cachedArray = some e.source ∧
      (toArray e).2.2 = 1) ∧
    (∀ a : List α, e.cachedArray = some a →
      (toArray e).1 = a ∧ (toArray e).2.1 = e ∧ (toArray e).2.2 = 0) := by
  cases h : e.cachedArray with
  | none => simp [toArray, materialize, h]
  | some a => simp [toArray, materialize, h]

/-- Witness for C8 at a concrete uncached sequence object. -/
theorem c8_witness :
    (toArray (⟨[1, 2], none⟩ : EnumerableState Nat)).1 = [1, 2] ∧
    (toArray (⟨[1, 2], none⟩ : EnumerableState Nat)).2.1.cachedArray = some [1, 2] ∧
    (toArray (⟨[1, 2], none⟩ : EnumerableState Nat)).2.2 = 1 :=
  (c8_toArray_idempotent_cached (⟨[1, 2], none⟩ : EnumerableState Nat)).2.2.2.2.1 rfl

/-- C9: the hide operation never introduces a duplicate: when the target is
already a member the hidden list is returned unchanged (so nothing is
written and no refresh fires, both outside this functional model), and a
duplicate-free hidden list stays duplicate-free across every hide. -/
theorem c9_hide_no_duplicates (hidden : List RelPath) (p : RelPath) :
    (hidden.contains p = true → hideFolder hidden p = hidden) ∧
    (hidden.Nodup → (hideFolder hidden p).Nodup) := by
  constructor
  · intro h
    have hm : p ∈ hidden := List.elem_iff.mp h
    simp [hideFolder, containsE, linq, hm]
  · intro hnd
    cases hc : hidden.contains p with
    | true =>
      have hm : p ∈ hidden := List.elem_iff.mp hc
      simpa [hideFolder, containsE, linq, hm] using hnd
    | false =>
      have hnm : p ∉ hidden := contains_eq_false_iff.mp hc
      have : hideFolder hidden p = hidden ++ [p] := by
        simp [hideFolder, containsE, linq, hnm]
      rw [this, List.nodup_append]
      exact ⟨hnd, List.nodup_singleton p, by
        intro a ha hb
        rw [List.mem_singleton] at hb
        exact hnm (hb ▸ ha)⟩

/-- Witness for C9 at concrete hidden lists. -/
theorem c9_witness :
    hideFolder [[("a" : String)]] [("a" : String)] = [[("a" : String)]] ∧
    (hideFolder [[("a" : String)]] [("b" : String)]).Nodup :=
  ⟨(c9_hide_no_duplicates [["a"]] ["a"]).1 (by decide),
   (c9_hide_no_duplicates [["a"]] ["b"]).2 (by decide)⟩

/-- C7 counterexample: hiding an already-hidden folder and then unhiding it
does not restore the pre-hide hidden list — the claim fails as stated for a
path already in the set. -/
theorem c7_counterexample :
    unhideFolder (hideFolder [[("a" : String)]] [("a" : String)]) [("a" : String)] ≠
      [[("a" : String)]] := by decide

/-- C7 (amended): for every hidden-path set and every folder path *not
already in the set*, hiding the path and then unhiding it restores exactly
the pre-hide hidden list, and therefore every subsequent listing result is
the pre-hide one. -/
theorem c7_hide_unhide_roundtrip (hidden : List RelPath) (p : RelPath) (hnm : p ∉ hidden) :
    unhideFolder (hideFolder hidden p) p = hidden ∧
    ∀ (f1 f2 : Bool) (fuel : Nat) (node : FSNode) (du dr : RelPath),
      readDirectory ⟨unhideFolder (hideFolder hidden p) p, f1, f2⟩ fuel node du dr =
        readDirectory ⟨hidden, f1, f2⟩ fuel node du dr := by
  have hc : hidden.contains p = false := contains_eq_false_iff.mpr hnm
  have h1 : unhideFolder (hideFolder hidden p) p = hidden := by
    have hpush : hideFolder hidden p = hidden ++ [p] := by
      simp [hideFolder, containsE, linq, hnm]
    rw [hpush]
    simp only [unhideFolder, toArrayE, whereE, linq, List.filter_append]
    have hkeep : hidden.filter (fun f => f != p) = hidden :=
      List.filter_eq_self.mpr (fun a ha => bne_iff_ne.mpr (fun he => hnm (he ▸ ha)))
    have hdrop : [p].filter (fun f => f != p) = [] := by simp
    rw [hkeep, hdrop, List.append_nil]
  exact ⟨h1, fun f1 f2 fuel node du dr => by rw [h1]⟩

/-- Witness for C7 (amended) at a concrete hidden list and path. -/
theorem c7_witness :
    unhideFolder (hideFolder [[("a" : String)]] [("b" : String)]) [("b" : String)] =
      [[("a" : String)]] :=
  (c7_hide_unhide_roundtrip [["a"]] ["b"] (by decide)).1

/-- C3: the listing's sort applies only the `orderBy` stage's comparer
(directory rank), because the inherited `toArray` materializes
`Array.from(this.source)` — the stage *before* the final `thenBy` — instead
of iterating the receiver: names are never compared.  Concretely, two files
listed as `b, a` keep that order even though the locale comparator orders
`a` before `b`; iterating the same pipeline (which uses the overridden
iterator and hence the composed comparer) would give the claimed
name-ascending order, pinning the divergence to `toArray`. -/
theorem c3_sort_skips_name_stage :
    (∀ l : List (String × FSNode),
      sortEntries l = stableSort (createKeyComparer entryRank defaultCompare false) l) ∧
    (sortEntries [("b", FSNode.file), ("a", FSNode.file)]).map Prod.fst = ["b", "a"] ∧
    localeCompare "a" "b" < 0 ∧
    (iterSeqO (thenBy (orderBy (linq [("b", FSNode.file), ("a", FSNode.file)])
        entryRank defaultCompare) Prod.fst localeCompare)).map Prod.fst = ["a", "b"] :=
  ⟨fun _ => rfl, by decide, by decide, by decide⟩

/-- An entry of the raw children contributes its `processEntry` result to
the listing (sorting only permutes the entries). -/
theorem mem_readDirectory_of_processEntry {cfg : Config} {fuel : Nat} {du dr : RelPath}
    {parentCh : List (String × FSNode)} {e : String × FSNode} {it : ExplorerSharpItem}
    (he : e ∈ parentCh) (hp : processEntry cfg fuel du dr e = some it) :
    it ∈ readDirectory cfg fuel (FSNode.dir parentCh) du dr := by
  simp only [readDirectory]
  exact List.mem_filterMap.mpr ⟨e, mem_stableSort.mpr he, hp⟩

/-- C2: a directory whose non-dot, non-hidden children are exactly one file
and no subdirectory is flattened (single-file flattening enabled) to the
single node labeled `<dir>/<file>` — `<dir>` being the folder's base name —
with `isDirectory = false`, `logicalPath` the file's relative path,
`storageLocation` the file's location, and `originFolder` the folder's
relative path; listing any parent containing the folder yields that node
for it. -/
theorem c2_single_file_flatten (cfg : Config) (fu : Nat) (du dr : RelPath)
    (dname fname : String) (ch : List (String × FSNode))
    (hflag : cfg.flattenSingleFile = true)
    (hdot : strStartsWith dname "." = false)
    (hhid : cfg.hiddenFolders.contains (dr ++ [dname]) = false)
    (hone : ch.filter (allowedEntry cfg.hiddenFolders (dr ++ [dname])) = [(fname, FSNode.file)]) :
    tryFlatten cfg (fu + 1) (FSNode.dir ch) (du ++ [dname]) (dr ++ [dname]) =
      some { label := dname ++ "/" ++ fname,
             resourceUri := du ++ [dname, fname],
             relativePath := dr ++ [dname, fname],
             isDirectory := false,
             diskUri := du ++ [dname, fname],
             contextValue := "flatFolder",
             folderPath := some (dr ++ [dname]),
             description := some "" } ∧
    ∀ parentCh : List (String × FSNode), (dname, FSNode.dir ch) ∈ parentCh →
      ({ label := dname ++ "/" ++ fname,
         resourceUri := du ++ [dname, fname],
         relativePath := dr ++ [dname, fname],
         isDirectory := false,
         diskUri := du ++ [dname, fname],
         contextValue := "flatFolder",
         folderPath := some (dr ++ [dname]),
         description := some "" } : ExplorerSharpItem) ∈
        readDirectory cfg (fu + 1) (FSNode.dir parentCh) du dr := by
  have h1 : tryFlatten cfg (fu + 1) (FSNode.dir ch) (du ++ [dname]) (dr ++ [dname]) =
      some { label := dname ++ "/" ++ fname,
             resourceUri := du ++ [dname, fname],
             relativePath := dr ++ [dname, fname],
             isDirectory := false,
             diskUri := du ++ [dname, fname],
             contextValue := "flatFolder",
             folderPath := some (dr ++ [dname]),
             description := some "" } := by
    simp only [tryFlatten, toArrayE, whereE, linq, hone]
    simp [flattenFile, mkItem, basename, List.getLast?_concat, hflag, FSNode.ftype]
  refine ⟨h1, fun parentCh hmem => ?_⟩
  refine mem_readDirectory_of_processEntry hmem ?_
  simp only [processEntry, hdot, hhid, Bool.false_eq_true, if_false, FSNode.ftype]
  simp only [h1]
  rfl

/-- Witness for C2 at a concrete folder `src` containing one file `main.c`. -/
theorem c2_witness :
    tryFlatten ⟨[], true, true⟩ 1 (FSNode.dir [("main.c", FSNode.file)]) ["src"] ["src"] =
      some { label := "src" ++ "/" ++ "main.c",
             resourceUri := ["src", "main.c"],
             relativePath := ["src", "main.c"],
             isDirectory := false,
             diskUri := ["src", "main.c"],
             contextValue := "flatFolder",
             folderPath := some ["src"],
             description := some "" } :=
  (c2_single_file_flatten ⟨[], true, true⟩ 0 [] [] "src" "main.c"
    [("main.c", FSNode.file)] rfl (by decide) (by decide) rfl).1

/-- Single-file flattening step of `tryFlatten`, in terms of the surviving
children. -/
theorem tryFlatten_single_file (cfg : Config) (fu : Nat) (u r : RelPath) (fname : String)
    (ch : List (String × FSNode))
    (hflag : cfg.flattenSingleFile = true)
    (hone : ch.filter (allowedEntry cfg.hiddenFolders r) = [(fname, FSNode.file)]) :
    tryFlatten cfg (fu + 1) (FSNode.dir ch) u r =
      some { label := basename r ++ "/" ++ fname,
             resourceUri := u ++ [fname],
             relativePath := r ++ [fname],
             isDirectory := false,
             diskUri := u ++ [fname],
             contextValue := "flatFolder",
             folderPath := some r,
             description := some "" } := by
  simp only [tryFlatten, toArrayE, whereE, linq, hone]
  simp [flattenFile, mkItem, FSNode.ftype, hflag]

/-- Successful single-child flattening step of `tryFlatten`: the label is
re-prefixed with this folder's base name, every other field — `originFolder`
included — is taken from the deeper result. -/
theorem tryFlatten_single_child (cfg : Config) (fu : Nat) (u r : RelPath)
    (cname : String) (cnode : FSNode) (ch : List (String × FSNode)) (deeper : ExplorerSharpItem)
    (hflag : cfg.flattenSingleChild = true)
    (hone : ch.filter (allowedEntry cfg.hiddenFolders r) = [(cname, cnode)])
    (hdir : cnode.ftype = FileType.directory)
    (hrec : tryFlatten cfg fu cnode (u ++ [cname]) (r ++ [cname]) = some deeper) :
    tryFlatten cfg (fu + 1) (FSNode.dir ch) u r =
      some { label := basename r ++ "/" ++ deeper.label,
             resourceUri := deeper.resourceUri,
             relativePath := deeper.relativePath,
             isDirectory := deeper.isDirectory,
             diskUri := deeper.diskUri,
             contextValue := deeper.contextValue,
             folderPath := deeper.folderPath,
             description := none } := by
  simp only [tryFlatten, toArrayE, whereE, linq, hone]
  simp [hdir, hflag, hrec, mkItem]

/-- C1 (amended): for a chain of three nested directories `d1/d2/d3`, each
with exactly one child directory and `d3` containing exactly one file, with
both flattening flags enabled, the top-level listing yields exactly one node
labeled `<d1>/<d2>/<d3>/<file>` whose `originFolder` (`folderPath`) is the
relative path of `d3` — the *deepest* folder of the chain, the one set by
the terminal single-file flatten and left unchanged by the outer recursion
levels — not `d1`'s. -/
theorem c1_chain_origin_deepest (cfg : Config) (fu : Nat) (du dr : RelPath)
    (d1 d2 d3 f : String)
    (hf1 : cfg.flattenSingleFile = true) (hf2 : cfg.flattenSingleChild = true)
    (h1 : strStartsWith d1 "." = false) (h2 : strStartsWith d2 "." = false)
    (h3 : strStartsWith d3 "." = false) (h4 : strStartsWith f "." = false)
    (hh1 : dr ++ [d1] ∉ cfg.hiddenFolders)
    (hh2 : dr ++ [d1, d2] ∉ cfg.hiddenFolders)
    (hh3 : dr ++ [d1, d2, d3] ∉ cfg.hiddenFolders)
    (hh4 : dr ++ [d1, d2, d3, f] ∉ cfg.hiddenFolders) :
    readDirectory cfg (fu + 3)
      (FSNode.dir [(d1, FSNode.dir [(d2, FSNode.dir [(d3, FSNode.dir [(f, FSNode.file)])])])]) du dr =
      [{ label := d1 ++ "/" ++ (d2 ++ "/" ++ (d3 ++ "/" ++ f)),
         resourceUri := du ++ [d1, d2, d3, f],
         relativePath := dr ++ [d1, d2, d3, f],
         isDirectory := false,
         diskUri := du ++ [d1, d2, d3, f],
         contextValue := "flatFolder",
         folderPath := some (dr ++ [d1, d2, d3]),
         description := none }] := by
  have hstep3 := tryFlatten_single_file cfg fu (du ++ [d1, d2, d3]) (dr ++ [d1, d2, d3]) f
    [(f, FSNode.file)] hf1 (by simp [allowedEntry, h4, hh4])
  have hstep2 := tryFlatten_single_child cfg (fu + 1) (du ++ [d1, d2]) (dr ++ [d1, d2]) d3
    (FSNode.dir [(f, FSNode.file)]) [(d3, FSNode.dir [(f, FSNode.file)])] _
    hf2 (by simp [allowedEntry, h3, hh3]) rfl (by simpa [List.append_assoc] using hstep3)
  have hstep1 := tryFlatten_single_child cfg (fu + 2) (du ++ [d1]) (dr ++ [d1]) d2
    (FSNode.dir [(d3, FSNode.dir [(f, FSNode.file)])])
    [(d2, FSNode.dir [(d3, FSNode.dir [(f, FSNode.file)])])] _
    hf2 (by simp [allowedEntry, h2, hh2]) rfl (by simpa [List.append_assoc] using hstep2)
  simp only [readDirectory]
  have hsort : sortEntries [(d1, FSNode.dir [(d2, FSNode.dir [(d3, FSNode.dir [(f, FSNode.file)])])])] =
      [(d1, FSNode.dir [(d2, FSNode.dir [(d3, FSNode.dir [(f, FSNode.file)])])])] := rfl
  rw [hsort]
  simp only [List.filterMap_cons, List.filterMap_nil, processEntry, h1, FSNode.ftype]
  rw [if_neg (by simp), if_neg (by simp [hh1])]
  rw [show ((fu + 3 : Nat)) = (fu + 2) + 1 from rfl] at hstep1 ⊢
  simp only [hstep1]
  simp [basename, List.getLast?_concat]

/-- Witness for C1 (amended) at a concrete three-directory chain. -/
theorem c1_witness :
    readDirectory ⟨[], true, true⟩ 3
      (FSNode.dir [("d1", FSNode.dir [("d2", FSNode.dir [("d3", FSNode.dir [("f", FSNode.file)])])])])
      [] [] =
      [{ label := "d1" ++ "/" ++ ("d2" ++ "/" ++ ("d3" ++ "/" ++ "f")),
         resourceUri := ["d1", "d2", "d3", "f"],
         relativePath := ["d1", "d2", "d3", "f"],
         isDirectory := false,
         diskUri := ["d1", "d2", "d3", "f"],
         contextValue := "flatFolder",
         folderPath := some ["d1", "d2", "d3"],
         description := none }] :=
  c1_chain_origin_deepest ⟨[], true, true⟩ 0 [] [] "d1" "d2" "d3" "f"
    rfl rfl (by decide) (by decide) (by decide) (by decide)
    (by decide) (by decide) (by decide) (by decide)

/-- C1 counterexample: at the concrete chain `d1/d2/d3/f` the single listed
node carries `originFolder = d1/d2/d3` (the deepest folder), which is not
`d1`'s relative path as the claim states. -/
theorem c1_counterexample :
    (readDirectory ⟨[], true, true⟩ 3
        (FSNode.dir [("d1", FSNode.dir [("d2", FSNode.dir [("d3", FSNode.dir [("f", FSNode.file)])])])])
        [] []).map (fun it => (it.label, it.folderPath)) =
      [("d1/d2/d3/f", some ["d1", "d2", "d3"])] ∧
    (["d1", "d2", "d3"] : RelPath) ≠ ["d1"] := by
  exact ⟨by decide, by decide⟩

/-- The chain condition maintained below a listed directory: every segment
added on the way down is non-dot and every intermediate relative path is
outside the hidden set (`tryFlatten` re-applies the exclusion rules at each
level). -/
def goodSuffix (hidden : List RelPath) : RelPath → List String → Prop
  | _, [] => True
  | base, n :: rest =>
      strStartsWith n "." = false ∧ base ++ [n] ∉ hidden ∧
      goodSuffix hidden (base ++ [n]) rest

theorem head?_mem {α : Type} {l : List α} {a : α} (h : l.head? = some a) : a ∈ l := by
  cases l with
  | nil => simp at h
  | cons x xs =>
    simp only [List.head?_cons, Option.some.injEq] at h
    exact h ▸ List.mem_cons_self x xs

theorem allowedEntry_facts {hidden : List RelPath} {r : RelPath} {e : String × FSNode}
    (h : allowedEntry hidden r e = true) :
    strStartsWith e.1 "." = false ∧ r ++ [e.1] ∉ hidden := by
  simp only [allowedEntry, Bool.and_eq_true, Bool.not_eq_true'] at h
  exact ⟨h.1, contains_eq_false_iff.mp h.2⟩

/-- Every successful `tryFlatten` result's logical path extends the folder's
relative path by a nonempty chain of allowed (non-dot, non-hidden)
segments. -/
theorem tryFlatten_goodSuffix (cfg : Config) :
    ∀ (fuel : Nat) (node : FSNode) (u r : RelPath) (it : ExplorerSharpItem),
      tryFlatten cfg fuel node u r = some it →
      ∃ rest, rest ≠ [] ∧ it.relativePath = r ++ rest ∧
        goodSuffix cfg.hiddenFolders r rest := by
  intro fuel
  induction fuel with
  | zero => intro node u r it h; simp [tryFlatten] at h
  | succ fu ih =>
    intro node u r it h
    cases node with
    | file => simp [tryFlatten] at h
    | badDir => simp [tryFlatten] at h
    | dir ch =>
      simp only [tryFlatten, toArrayE, whereE, linq] at h
      split at h
      · split at h
        next f hf =>
          have hfa : allowedEntry cfg.hiddenFolders r f = true :=
            (List.mem_filter.mp (List.mem_of_mem_filter (head?_mem hf))).2
          obtain ⟨hdot, hnm⟩ := allowedEntry_facts hfa
          refine ⟨[f.1], by simp, ?_, ⟨hdot, hnm, trivial⟩⟩
          have := congrArg (fun o => Option.map ExplorerSharpItem.relativePath o) h
          simpa [flattenFile, mkItem] using this.symm
        next => exact absurd h (by simp)
      · split at h
        · split at h
          next c hc =>
            have hca : allowedEntry cfg.hiddenFolders r c = true :=
              (List.mem_filter.mp (List.mem_of_mem_filter (head?_mem hc))).2
            obtain ⟨hdot, hnm⟩ := allowedEntry_facts hca
            split at h
            next deeper hdeep =>
              obtain ⟨rest2, hne2, hrel2, hgs2⟩ := ih c.2 (u ++ [c.1]) (r ++ [c.1]) deeper hdeep
              refine ⟨c.1 :: rest2, by simp, ?_, ⟨hdot, hnm, hgs2⟩⟩
              have hit : it.relativePath = deeper.relativePath := by
                have := congrArg (fun o => Option.map ExplorerSharpItem.relativePath o) h
                simpa [mkItem] using this.symm
              rw [hit, hrel2, List.append_assoc]
              rfl
            next hdeep =>
              refine ⟨[c.1], by simp, ?_, ⟨hdot, hnm, trivial⟩⟩
              have := congrArg (fun o => Option.map ExplorerSharpItem.relativePath o) h
              simpa [mkItem] using this.symm
          next => exact absurd h (by simp)
        · exact absurd h (by simp)

/-- Every item produced for an entry by the listing loop extends the listed
directory's relative path by a nonempty allowed chain. -/
theorem processEntry_goodSuffix {cfg : Config} {fuel : Nat} {du dr : RelPath}
    {e : String × FSNode} {it : ExplorerSharpItem}
    (h : processEntry cfg fuel du dr e = some it) :
    ∃ rest, rest ≠ [] ∧ it.relativePath = dr ++ rest ∧
      goodSuffix cfg.hiddenFolders dr rest := by
  simp only [processEntry] at h
  split at h
  · exact absurd h (by simp)
  next hdot =>
    split at h
    · exact absurd h (by simp)
    next hhid =>
      have hdot2 : strStartsWith e.1 "." = false := by
        revert hdot; cases strStartsWith e.1 "." <;> simp
      have hnm : dr ++ [e.1] ∉ cfg.hiddenFolders := by
        revert hhid
        cases hcc : cfg.hiddenFolders.contains (dr ++ [e.1]) with
        | true => intro hfalse; exact absurd (List.elem_iff.mp hcc) (fun _ => hfalse rfl)
        | false => intro _; exact contains_eq_false_iff.mp hcc
      split at h
      · split at h
        next flatResult hflat =>
          obtain ⟨rest2, hne2, hrel2, hgs2⟩ :=
            tryFlatten_goodSuffix cfg fuel e.2 (du ++ [e.1]) (dr ++ [e.1]) flatResult hflat
          have hit : it = flatResult := by
            simpa using h.symm
          refine ⟨e.1 :: rest2, by simp, ?_, ⟨hdot2, hnm, hgs2⟩⟩
          rw [hit, hrel2, List.append_assoc]
          rfl
        next =>
          refine ⟨[e.1], by simp, ?_, ⟨hdot2, hnm, trivial⟩⟩
          have := congrArg (fun o => Option.map ExplorerSharpItem.relativePath o) h
          simpa [mkItem] using this.symm
      · refine ⟨[e.1], by simp, ?_, ⟨hdot2, hnm, trivial⟩⟩
        have := congrArg (fun o => Option.map ExplorerSharpItem.relativePath o) h
        simpa [mkItem] using this.symm

theorem readDirectory_goodSuffix {cfg : Config} {fuel : Nat} {node : FSNode} {du dr : RelPath}
    {it : ExplorerSharpItem} (h : it ∈ readDirectory cfg fuel node du dr) :
    ∃ rest, rest ≠ [] ∧ it.relativePath = dr ++ rest ∧
      goodSuffix cfg.hiddenFolders dr rest := by
  cases node with
  | file => simp [readDirectory] at h
  | badDir => simp [readDirectory] at h
  | dir ch =>
    simp only [readDirectory] at h
    obtain ⟨e, _, hp⟩ := List.mem_filterMap.mp h
    exact processEntry_goodSuffix hp

theorem goodSuffix_not_isPre {hidden : List RelPath} {hp : RelPath} (hmem : hp ∈ hidden) :
    ∀ (rest : List String) (base : RelPath), goodSuffix hidden base rest →
      ¬ hp <+: base → ¬ hp <+: base ++ rest := by
  intro rest
  induction rest with
  | nil => intro base _ hnb; simpa using hnb
  | cons n rest2 ih =>
    intro base hgs hnb
    obtain ⟨hdot, hnm, hgs2⟩ := hgs
    have hstep : ¬ hp <+: base ++ [n] := by
      intro hpre
      rcases isPre_snoc_cases hpre with hcase | hcase
      · exact hnb hcase
      · exact hnm (hcase ▸ hmem)
    have := ih (base ++ [n]) hgs2 hstep
    rw [List.append_assoc] at this
    exact this

theorem goodSuffix_nondot {hidden : List RelPath} :
    ∀ (rest : List String) (base : RelPath), goodSuffix hidden base rest →
      ∀ n ∈ rest, strStartsWith n "." = false := by
  intro rest
  induction rest with
  | nil => intro base _ n hn; simp at hn
  | cons m rest2 ih =>
    intro base hgs n hn
    obtain ⟨hdot, _, hgs2⟩ := hgs
    rcases List.mem_cons.mp hn with rfl | hn2
    · exact hdot
    · exact ih (base ++ [m]) hgs2 n hn2

/-- C4: for every relative path in the hidden set, as long as the listed
directory is not itself that path or inside it (true of every listing the
view can reach, the spec's parenthetical: exclusion at the parent read
removes the whole branch), no listed node — flattened nodes included — has
that path or any filesystem descendant of it as its logical path. -/
theorem c4_hidden_paths_excluded (cfg : Config) (fuel : Nat) (node : FSNode) (du dr : RelPath)
    (hp : RelPath) (hmem : hp ∈ cfg.hiddenFolders) (hnb : ¬ hp <+: dr) :
    ∀ it ∈ readDirectory cfg fuel node du dr,
      it.relativePath ≠ hp ∧ ¬ hp <+: it.relativePath := by
  intro it hit
  obtain ⟨rest, hne, hrel, hgs⟩ := readDirectory_goodSuffix hit
  have hnot : ¬ hp <+: dr ++ rest := goodSuffix_not_isPre hmem rest dr hgs hnb
  rw [hrel]
  exact ⟨fun he => hnot ⟨[], by rw [List.append_nil, he]⟩, hnot⟩

/-- Witness for C4: listing the directory `a` while `a/b` is hidden shows
only the plain node for `a/x`, which is neither `a/b` nor below it. -/
theorem c4_witness :
    ({ label := "x", resourceUri := ["a", "x"], relativePath := ["a", "x"],
       isDirectory := false, diskUri := ["a", "x"], contextValue := "file",
       folderPath := none, description := none } : ExplorerSharpItem).relativePath ≠
        ["a", "b"] ∧
    ¬ (["a", "b"] : RelPath) <+:
      ({ label := "x", resourceUri := ["a", "x"], relativePath := ["a", "x"],
         isDirectory := false, diskUri := ["a", "x"], contextValue := "file",
         folderPath := none, description := none } : ExplorerSharpItem).relativePath :=
  c4_hidden_paths_excluded ⟨[[("a" : String), "b"]], true, true⟩ 2
    (FSNode.dir [("b", FSNode.dir [("c", FSNode.file)]), ("x", FSNode.file)]) ["a"] ["a"]
    ["a", "b"] (by decide) (by rintro ⟨t, ht⟩; simp at ht)
    { label := "x", resourceUri := ["a", "x"], relativePath := ["a", "x"],
      isDirectory := false, diskUri := ["a", "x"], contextValue := "file",
      folderPath := none, description := none } (by decide)

/-- C5: entries whose name starts with a dot never contribute a node — every
listed node's logical path extends the listed directory by non-dot segments
only, so no node for a dot entry (nor anything flattened through one)
appears — and dot entries are excluded before the children of a flattening
attempt are counted: filtering them away first does not change `tryFlatten`.
All of this holds for every hidden-path configuration and both flags. -/
theorem c5_dot_entries_excluded (cfg : Config) (fuel : Nat) (node : FSNode) (du dr u r : RelPath)
    (ch : List (String × FSNode)) :
    (∀ it ∈ readDirectory cfg fuel node du dr,
      ∃ rest, rest ≠ [] ∧ it.relativePath = dr ++ rest ∧
        ∀ n ∈ rest, strStartsWith n "." = false) ∧
    (∀ name, strStartsWith name "." = true →
      ∀ it ∈ readDirectory cfg fuel node du dr, ¬ dr ++ [name] <+: it.relativePath) ∧
    tryFlatten cfg fuel (FSNode.dir (ch.filter (fun e => !(strStartsWith e.1 ".")))) u r =
      tryFlatten cfg fuel (FSNode.dir ch) u r := by
  refine ⟨?_, ?_, ?_⟩
  · intro it hit
    obtain ⟨rest, hne, hrel, hgs⟩ := readDirectory_goodSuffix hit
    exact ⟨rest, hne, hrel, goodSuffix_nondot rest dr hgs⟩
  · intro name hname it hit hpre
    obtain ⟨rest, hne, hrel, hgs⟩ := readDirectory_goodSuffix hit
    rw [hrel] at hpre
    obtain ⟨t, ht⟩ := hpre
    rw [List.append_assoc] at ht
    have ht2 : [name] ++ t = rest := List.append_cancel_left ht
    have hmem : name ∈ rest := by
      rw [← ht2]
      exact List.mem_append_left t (List.mem_singleton_self name)
    have hcontra := goodSuffix_nondot rest dr hgs name hmem
    rw [hname] at hcontra
    simp at hcontra
  · cases fuel with
    | zero => rfl
    | succ fu =>
      have hff : (ch.filter (fun e => !(strStartsWith e.1 "."))).filter
            (allowedEntry cfg.hiddenFolders r) =
          ch.filter (allowedEntry cfg.hiddenFolders r) := by
        rw [List.filter_filter]
        refine List.filter_congr (fun e he => ?_)
        cases hd : strStartsWith e.1 "." <;> simp [allowedEntry, hd]
      simp only [tryFlatten, toArrayE, whereE, linq, hff]

/-- Witness for C5 at a directory containing `.git` and a file: the sole
listed node (for `a`) is not under `.git`, and filtering the dot entry away
first leaves `tryFlatten` unchanged. -/
theorem c5_witness :
    (¬ ([] : RelPath) ++ [".git"] <+:
      ({ label := "a", resourceUri := ["a"], relativePath := ["a"],
         isDirectory := false, diskUri := ["a"], contextValue := "file",
         folderPath := none, description := none } : ExplorerSharpItem).relativePath) ∧
    tryFlatten ⟨[], true, true⟩ 1
        (FSNode.dir (([(".git", FSNode.dir []), ("a", FSNode.file)]).filter
          (fun e => !(strStartsWith e.1 ".")))) [] [] =
      tryFlatten ⟨[], true, true⟩ 1
        (FSNode.dir [(".git", FSNode.dir []), ("a", FSNode.file)]) [] [] :=
  ⟨(c5_dot_entries_excluded ⟨[], true, true⟩ 1
      (FSNode.dir [(".git", FSNode.dir []), ("a", FSNode.file)]) [] [] [] []
      [(".git", FSNode.dir []), ("a", FSNode.file)]).2.1 ".git" (by decide)
      { label := "a", resourceUri := ["a"], relativePath := ["a"],
        isDirectory := false, diskUri := ["a"], contextValue := "file",
        folderPath := none, description := none } (by decide),
   (c5_dot_entries_excluded ⟨[], true, true⟩ 1
      (FSNode.dir [(".git", FSNode.dir []), ("a", FSNode.file)]) [] [] [] []
      [(".git", FSNode.dir []), ("a", FSNode.file)]).2.2⟩
